import Mathlib

/-!
Verification of the qmock call-verification engine against its design
specification. The core module of the repository is not present in the
source tree (only its test suite and compatibility shim are), so the
data model and the operations below are modelled from the specification
document, with the test suite pinning the concrete observable behavior
(exact error messages, queue decomposition, magic-method protocol).
-/

mutual

/-- Modelled from the spec: the repository's core qmock module is missing
from the source tree. A Call Chain is an immutable structural record of a
path of attribute accesses and invocations: a chain node is a root, an
attribute node (name, parent chain), or an invocation node (parent chain,
ordered positional argument values, keyword name/value mapping).
Argument values may themselves contain nested chains. -/
inductive Chain where
  | root : Chain
  | attr : Chain → String → Chain
  | invoke : Chain → Args → Kwargs → Chain

inductive Args where
  | nil : Args
  | cons : Value → Args → Args

inductive Kwargs where
  | nil : Kwargs
  | cons : String → Value → Kwargs → Kwargs

inductive Value where
  | int : Int → Value
  | str : String → Value
  | node : Nat → Value
  | chain : Chain → Value
  | exc : String → String → Value
end

mutual

/-- Modelled from the spec (missing core module): chain equality is
structural, recursive and order-sensitive; two chains are equal iff every
step matches by value, including recursive equality of nested chains used
as arguments. -/
def chainEq : Chain → Chain → Bool
  | Chain.root, Chain.root => true
  | Chain.attr p n, Chain.attr q m => chainEq p q && n == m
  | Chain.invoke p a k, Chain.invoke q b l =>
      chainEq p q && argsEq a b && kwargsEq k l
  | _, _ => false
termination_by structural c _ => c

def argsEq : Args → Args → Bool
  | Args.nil, Args.nil => true
  | Args.cons v r, Args.cons w s => valueEq v w && argsEq r s
  | _, _ => false
termination_by structural a _ => a

def kwargsEq : Kwargs → Kwargs → Bool
  | Kwargs.nil, Kwargs.nil => true
  | Kwargs.cons n v r, Kwargs.cons m w s => n == m && valueEq v w && kwargsEq r s
  | _, _ => false
termination_by structural k _ => k

def valueEq : Value → Value → Bool
  | Value.int a, Value.int b => a == b
  | Value.str a, Value.str b => a == b
  | Value.node a, Value.node b => a == b
  | Value.chain a, Value.chain b => chainEq a b
  | Value.exc t1 m1, Value.exc t2 m2 => t1 == t2 && m1 == m2
  | _, _ => false
termination_by structural v _ => v
end

/-- Single-quote character, used by the display renderings. -/
def sqch : String := String.singleton (Char.ofNat 39)

mutual

/-- Modelled from the spec (missing core module): deterministic
human-readable rendering of a chain, used in mismatch error messages; the
root double renders as the word call, attribute steps render dotted, and
invocation steps render the positional arguments then the keyword
arguments comma-separated between parentheses. -/
def displayChain : Chain → String
  | Chain.root => "call"
  | Chain.attr p n => displayChain p ++ "." ++ n
  | Chain.invoke p a k =>
      displayChain p ++ "(" ++
        String.intercalate ", " (displayArgs a ++ displayKwargs k) ++ ")"
termination_by structural c => c

def displayArgs : Args → List String
  | Args.nil => []
  | Args.cons v r => displayValue v :: displayArgs r
termination_by structural a => a

def displayKwargs : Kwargs → List String
  | Kwargs.nil => []
  | Kwargs.cons n v r => (n ++ "=" ++ displayValue v) :: displayKwargs r
termination_by structural k => k

def displayValue : Value → String
  | Value.int n => toString n
  | Value.str s => sqch ++ s ++ sqch
  | Value.node id => "<QMock " ++ toString id ++ ">"
  | Value.chain c => displayChain c
  | Value.exc t m => t ++ "(" ++ sqch ++ m ++ sqch ++ ")"
termination_by structural v => v
end

/-- Result values that are exception descriptors are raised by pop rather
than returned. -/
def Value.isExc : Value → Bool
  | Value.exc _ _ => true
  | _ => false

/-- Proxy-node values. -/
def Value.isNode : Value → Bool
  | Value.node _ => true
  | _ => false

/-- Does the chain's tip step denote an invocation (rather than a bare
attribute access or the bare root)? -/
def tipInv : Chain → Bool
  | Chain.invoke _ _ _ => true
  | _ => false

/-- Modelled from the spec (missing core module): taxonomy of qmock
verification failures. QueueEmpty and CallMismatch both surface as
UnexpectedCall carrying the rendered message. -/
inductive QMockError where
  | UnexpectedCall : String → QMockError
  | BadCall : String → QMockError
  | CallQueueNotEmpty : Nat → QMockError
  | attrError : String → QMockError

/-- Modelled from the spec (missing core module): a pop-error record is a
pair of the originating thread's identifier and the error value, appended
to the side log whenever a pop attempt fails. -/
structure PopError where
  thread_id : Nat
  error : QMockError

/-- Modelled from the spec (missing core module): the Expectation Queue is
an ordered list of (expected chain, result) entries with strict FIFO
pop-and-match semantics, plus the side log of pop-error records. -/
structure CallQueue where
  queue : List (Chain × Value)
  pop_errors : List PopError

/-- Modelled from the spec (missing core module): the outcome of one pop
attempt: a returned value, a raised configured exception, or a raised
verification error (already logged in the side log). -/
inductive PopResult where
  | value : Value → PopResult
  | raised : Value → PopResult
  | error : QMockError → PopResult

/-- Modelled from the spec (missing core module): pop fails with
QueueEmpty if the queue has no entries and with CallMismatch if the head
entry's expected chain is not structurally equal to the actual chain; in
both failure cases it appends a pop-error record for the calling thread
before raising. On match it removes the head entry and returns its result,
raising it instead if the result is an exception descriptor. -/
def CallQueue.popCall (cq : CallQueue) (tid : Nat) (actual : Chain) :
    PopResult × CallQueue :=
  match cq.queue with
  | [] =>
      let e := QMockError.UnexpectedCall
        ("Queue is empty. call: " ++ displayChain actual)
      (PopResult.error e,
        { cq with pop_errors := cq.pop_errors ++ [⟨tid, e⟩] })
  | (expected, r) :: rest =>
      if chainEq expected actual then
        if r.isExc then (PopResult.raised r, { cq with queue := rest })
        else (PopResult.value r, { cq with queue := rest })
      else
        let e := QMockError.UnexpectedCall
          ("Call does not match expectation. actual: " ++
            displayChain actual ++ "; expected: " ++ displayChain expected)
        (PopResult.error e,
          { cq with pop_errors := cq.pop_errors ++ [⟨tid, e⟩] })

/-- Modelled from the spec (missing core module): assertEmpty fails with
CallQueueNotEmpty naming the number of unconsumed entries. -/
def CallQueue.assert_empty (cq : CallQueue) : Except QMockError Unit :=
  if cq.queue.isEmpty then Except.ok () else
    Except.error (QMockError.CallQueueNotEmpty cq.queue.length)

/-- Modelled from the spec (missing core module): a double's proxy tree.
Children are lazily materialized, identity-stable nodes identified by
numeric ids (the root is id 0, fresh ids come from a counter); a node maps
each attribute name either to a registered child proxy node or to a
directly-assigned literal value; the owning Expectation Queue is shared by
the whole tree. -/
structure QMock where
  nextId : Nat
  children : List ((Nat × String) × Nat)
  assigned : List ((Nat × String) × Value)
  call_queue : CallQueue

/-- Fresh double: only the root node (id 0) exists, the queue is empty. -/
def QMock.fresh : QMock := ⟨1, [], [], ⟨[], []⟩⟩

/-- Lookup of a registered child proxy node in the child registry. -/
def lookupChild : List ((Nat × String) × Nat) → Nat → String → Option Nat
  | [], _, _ => none
  | ((p, s), c) :: rest, q, t =>
      if p = q ∧ s = t then some c else lookupChild rest q t

/-- Lookup of a directly-assigned literal value. -/
def lookupAssigned : List ((Nat × String) × Value) → Nat → String → Option Value
  | [], _, _ => none
  | ((p, s), v) :: rest, q, t =>
      if p = q ∧ s = t then some v else lookupAssigned rest q t

/-- Modelled from the spec (missing core module): getChild returns the
directly-assigned value unchanged when the name was assigned; otherwise it
returns the already-registered child proxy (identity-stable), and
otherwise it creates, registers and returns a fresh child proxy node
sharing the root's queue. Host-reserved magic-method names route through
this same mechanism. -/
def getChild (qm : QMock) (id : Nat) (name : String) : Value × QMock :=
  match lookupAssigned qm.assigned id name with
  | some v => (v, qm)
  | none =>
      match lookupChild qm.children id name with
      | some c => (Value.node c, qm)
      | none =>
          (Value.node qm.nextId,
            { qm with
                nextId := qm.nextId + 1,
                children := ((id, name), qm.nextId) :: qm.children })

/-- Modelled from the spec (missing core module): setChild directly
assigns a literal value to the name, overwriting any previously
materialized child proxy; future getChild calls return the literal. -/
def setChild (qm : QMock) (id : Nat) (name : String) (v : Value) : QMock :=
  { qm with assigned := ((id, name), v) :: qm.assigned }

/-- Step of a getChild on a value: only proxy-node values have proxied
attribute access; reading an attribute of a literal results in an
attribute-resolution error. -/
def getChildV (qm : QMock) (v : Value) (name : String) :
    Except QMockError (Value × QMock) :=
  match v with
  | Value.node id => Except.ok (getChild qm id name)
  | _ => Except.error (QMockError.attrError "value is not a proxy node")

/-- Modelled from the spec (missing core module): resolveExpectedReturn
walks a chain step by step, without consulting the Expectation Queue, and
returns the proxy node or value the Proxy Tree would produce by default
for that path: an attribute step reads the named child and an invocation
step reads the return_value child of the parent node. -/
def mockReturnAux (qm : QMock) : Chain → Except QMockError (Value × QMock)
  | Chain.root => Except.ok (Value.node 0, qm)
  | Chain.attr p n =>
      match mockReturnAux qm p with
      | Except.ok (v, qm1) => getChildV qm1 v n
      | Except.error e => Except.error e
  | Chain.invoke p _ _ =>
      match mockReturnAux qm p with
      | Except.ok (v, qm1) => getChildV qm1 v "return_value"
      | Except.error e => Except.error e

/-- Modelled from the spec (missing core module): the public
resolveExpectedReturn entry point fails with an attribute-resolution error
when the supplied chain has no steps (the bare root is not a valid
argument). -/
def QMock.mock_return (qm : QMock) (c : Chain) :
    Except QMockError (Value × QMock) :=
  match c with
  | Chain.root => Except.error (QMockError.attrError "null call")
  | _ => mockReturnAux qm c

/-- Append one (expected chain, result) entry at the tail of the queue. -/
def pushEntry (qm : QMock) (c : Chain) (r : Value) : QMock :=
  { qm with call_queue :=
      { qm.call_queue with queue := qm.call_queue.queue ++ [(c, r)] } }

/-- Modelled from the spec (missing core module): push fails with the
MalformedExpectation condition (BadCall) when the expected chain's tip is
an attribute node (or the bare root) rather than an invocation node; on
success it appends the entry to the tail. -/
def QMock.push (qm : QMock) (c : Chain) (r : Value) :
    Except QMockError QMock :=
  match c with
  | Chain.invoke _ _ _ => Except.ok (pushEntry qm c r)
  | _ => Except.error
      (QMockError.BadCall "expected chain does not end in a call")

/-- Invocation-tipped prefixes of a chain, shortest first; these are the
chains that get one queue entry each under push_all. -/
def invokePrefixes : Chain → List Chain
  | Chain.root => []
  | Chain.attr p _ => invokePrefixes p
  | Chain.invoke p a k => invokePrefixes p ++ [Chain.invoke p a k]

/-- Modelled from the spec (missing core module): the decomposition part
of pushAll; every invocation-tipped prefix of the chain is pushed, in
increasing prefix order, configured with the synthetic continue result:
the proxy node resolveExpectedReturn produces for that prefix. -/
def pushInters (qm : QMock) : Chain → Except QMockError QMock
  | Chain.root => Except.ok qm
  | Chain.attr p _ => pushInters qm p
  | Chain.invoke p a k =>
      match pushInters qm p with
      | Except.ok qm1 =>
          match mockReturnAux qm1 (Chain.invoke p a k) with
          | Except.ok (v, qm2) =>
              Except.ok (pushEntry qm2 (Chain.invoke p a k) v)
          | Except.error e => Except.error e
      | Except.error e => Except.error e

/-- Modelled from the spec (missing core module): pushAll fails with the
same MalformedExpectation condition as push when the full chain's tip is
not an invocation node; otherwise it pushes one entry per invocation
prefix, intermediates configured with their natural proxy value and only
the final full-chain entry configured with the supplied result. -/
def QMock.push_all (qm : QMock) (c : Chain) (r : Value) :
    Except QMockError QMock :=
  match c with
  | Chain.invoke p _ _ =>
      match pushInters qm p with
      | Except.ok qm1 => Except.ok (pushEntry qm1 c r)
      | Except.error e => Except.error e
  | _ => Except.error
      (QMockError.BadCall "expected chain does not end in a call")

/-- Failure of a proxied invocation run: either a verification error
surfaced to the caller (UnexpectedCall, or an attribute failure), or a
configured exception result raised as the return of the call. -/
inductive RunFail where
  | err : QMockError → RunFail
  | raised : Value → RunFail

/-- Modelled from the spec (missing core module): executing a call-chain
expression against the double, one step at a time; the root denotes the
double itself, an attribute step reads a child, and an invocation step
translates the accumulated path plus arguments into an actual Call Chain
and delegates to the queue's pop, propagating QueueEmpty and CallMismatch
as UnexpectedCall and a configured exception result as a raise. -/
def runChain (tid : Nat) (qm : QMock) : Chain → Except RunFail (Value × QMock)
  | Chain.root => Except.ok (Value.node 0, qm)
  | Chain.attr p n =>
      match runChain tid qm p with
      | Except.ok (v, qm1) =>
          match getChildV qm1 v n with
          | Except.ok out => Except.ok out
          | Except.error e => Except.error (RunFail.err e)
      | Except.error e => Except.error e
  | Chain.invoke p a k =>
      match runChain tid qm p with
      | Except.ok (_, qm1) =>
          match qm1.call_queue.popCall tid (Chain.invoke p a k) with
          | (PopResult.value v, cq) =>
              Except.ok (v, { qm1 with call_queue := cq })
          | (PopResult.raised v, _) => Except.error (RunFail.raised v)
          | (PopResult.error e, _) => Except.error (RunFail.err e)
      | Except.error e => Except.error e

/-- Walk a plain attribute path from a node, reading one child per name;
stops early on a directly-assigned non-node value. -/
def getChildPath (qm : QMock) (id : Nat) : List String → Value × QMock
  | [] => (Value.node id, qm)
  | n :: rest =>
      match getChild qm id n with
      | (Value.node c, qm1) => getChildPath qm1 c rest
      | out => out

/-- Chain describing a plain attribute path from the root. -/
def chainOfPathAux (c : Chain) : List String → Chain
  | [] => c
  | n :: rest => chainOfPathAux (Chain.attr c n) rest

/-- Chain describing a plain attribute path from the root. -/
def chainOfPath : List String → Chain := chainOfPathAux Chain.root

/-- Modelled from the spec and the test suite (missing core module): the
expected chain a host magic-method operation on the node at the given path
is matched against; it extends the node's path with the method name and
passes the owning proxy node itself as the first positional argument. -/
def magicChain (path : List String) (meth : String) (selfv : Value)
    (extra : Args) : Chain :=
  Chain.invoke (Chain.attr (chainOfPath path) meth) (Args.cons selfv extra)
    Kwargs.nil

/-- Modelled from the spec and the test suite (missing core module):
triggering a host magic-method operation (string conversion, comparison,
length, ...) on the proxy node at the given path; it is matched as an
invocation of the method-name child whose first positional argument is the
owning node itself. -/
def magicOp (qm : QMock) (tid : Nat) (path : List String) (meth : String)
    (extra : Args) : PopResult × QMock :=
  match getChildPath qm 0 path with
  | (v, qm1) =>
      match qm1.call_queue.popCall tid (magicChain path meth v extra) with
      | (res, cq) => (res, { qm1 with call_queue := cq })

/-- One building step of a call-chain path: an attribute access or an
invocation with given arguments. -/
inductive Step where
  | attr : String → Step
  | invoke : Args → Kwargs → Step

/-- Extend a chain by one building step. -/
def extendChain (c : Chain) : Step → Chain
  | Step.attr n => Chain.attr c n
  | Step.invoke a k => Chain.invoke c a k

/-- Build a chain from the root by a path of steps; two chains built
independently via identical paths are the results of two applications of
this function to the same step list. -/
def buildChain (steps : List Step) : Chain :=
  steps.foldl extendChain Chain.root

/-- Host-language exception outside the qmock taxonomy, identified by its
type name and message, with its repr rendering. -/
structure PyExc where
  ty : String
  msg : String

/-- Repr rendering of a host exception, as used inside the aggregate
cross-thread failure message. -/
def pyRepr (e : PyExc) : String := e.ty ++ "(" ++ sqch ++ e.msg ++ sqch ++ ")"

/-- Modelled from the spec (missing core module): rendering of the
aggregate cross-thread failure, listing the repr of each collected error
in the order the errors were recorded. -/
def qmockErrorsInThreadsStr (reprs : List String) : String :=
  "Unhandled QMock errors raised in other threads: [" ++
    String.intercalate ", " reprs ++ "]"

/-- Outcome of a verification scope at exit. -/
inductive ScopeOutcome where
  | ok : ScopeOutcome
  | raisedBody : PyExc → ScopeOutcome
  | raisedAggregate : List (Nat × QMockError) → Option PyExc → ScopeOutcome
  | raisedNotEmpty : Nat → ScopeOutcome

/-- Pop-error records coming from threads other than the owning thread,
as ordered (thread id, error) pairs. -/
def otherThreadErrors (log : List PopError) (owner : Nat) :
    List (Nat × QMockError) :=
  (log.filter (fun r => r.thread_id != owner)).map
    (fun r => (r.thread_id, r.error))

/-- Modelled from the spec (missing core module): verification-scope exit.
When other-thread pop errors exist, a single aggregate failure carrying
the ordered pairs is raised, chaining the scope body's own error (if any)
as underlying cause; when none exist a body error propagates unchanged and
pre-empts the queue-completeness check; otherwise the non-empty-queue
check runs. -/
def scopeExit (bodyErr : Option PyExc) (cq : CallQueue) (owner : Nat) :
    ScopeOutcome :=
  match otherThreadErrors cq.pop_errors owner with
  | [] =>
      match bodyErr with
      | some e => ScopeOutcome.raisedBody e
      | none =>
          if cq.queue.isEmpty then ScopeOutcome.ok
          else ScopeOutcome.raisedNotEmpty cq.queue.length
  | e :: es => ScopeOutcome.raisedAggregate (e :: es) bodyErr

/-- Well-formedness of a proxy tree: every registered child id is below
the fresh-id counter and no two registrations share a child id. This is
the invariant that makes lazily materialized children distinct objects. -/
def WFq (qm : QMock) : Prop :=
  (∀ e ∈ qm.children, e.2 < qm.nextId) ∧ (qm.children.map Prod.snd).Nodup

/-- One proxy tree extends another: every registered child lookup is
preserved and the directly-assigned slots are unchanged. Materializing
children, pushing queue entries and popping all respect this order. -/
def ChildExt (qm qm2 : QMock) : Prop :=
  (∀ n s c, lookupChild qm.children n s = some c →
      lookupChild qm2.children n s = some c) ∧
    qm2.assigned = qm.assigned

/-- Example chain call(x=1), the first invocation prefix of the pushAll
example. -/
def exPref1 : Chain :=
  Chain.invoke Chain.root Args.nil (Kwargs.cons "x" (Value.int 1) Kwargs.nil)

/-- Example chain call(x=1).foo(y=2), the second invocation prefix of the
pushAll example. -/
def exPref2 : Chain :=
  Chain.invoke (Chain.attr exPref1 "foo") Args.nil
    (Kwargs.cons "y" (Value.int 2) Kwargs.nil)

/-- Example chain call(x=1).foo(y=2).bar(5), the full pushAll example. -/
def exFull : Chain :=
  Chain.invoke (Chain.attr exPref2 "bar") (Args.cons (Value.int 5) Args.nil)
    Kwargs.nil

/-- Example chain call.foo(), an expectation on a simple method call. -/
def exFoo : Chain :=
  Chain.invoke (Chain.attr Chain.root "foo") Args.nil Kwargs.nil

/-- Example chain call.not_foo(), a non-matching actual call. -/
def exNotFoo : Chain :=
  Chain.invoke (Chain.attr Chain.root "not_foo") Args.nil Kwargs.nil

mutual

theorem chainEq_refl : (c : Chain) → chainEq c c = true
  | Chain.root => rfl
  | Chain.attr p _ => by simp [chainEq, chainEq_refl p]
  | Chain.invoke p a k => by
      simp [chainEq, chainEq_refl p, argsEq_refl a, kwargsEq_refl k]

theorem argsEq_refl : (a : Args) → argsEq a a = true
  | Args.nil => rfl
  | Args.cons v r => by simp [argsEq, valueEq_refl v, argsEq_refl r]

theorem kwargsEq_refl : (k : Kwargs) → kwargsEq k k = true
  | Kwargs.nil => rfl
  | Kwargs.cons _ v r => by simp [kwargsEq, valueEq_refl v, kwargsEq_refl r]

theorem valueEq_refl : (v : Value) → valueEq v v = true
  | Value.int _ => by simp [valueEq]
  | Value.str _ => by simp [valueEq]
  | Value.node _ => by simp [valueEq]
  | Value.chain c => by simp [valueEq, chainEq_refl c]
  | Value.exc _ _ => by simp [valueEq]

end

theorem popCall_empty (q : List (Chain × Value)) (pe : List PopError)
    (tid : Nat) (actual : Chain) (h : q = []) :
    CallQueue.popCall ⟨q, pe⟩ tid actual =
      (PopResult.error (QMockError.UnexpectedCall
          ("Queue is empty. call: " ++ displayChain actual)),
        ⟨q, pe ++ [⟨tid, QMockError.UnexpectedCall
          ("Queue is empty. call: " ++ displayChain actual)⟩]⟩) := by
  subst h
  rfl

theorem popCall_mismatch (expected : Chain) (r : Value)
    (rest : List (Chain × Value)) (pe : List PopError)
    (tid : Nat) (actual : Chain) (h : chainEq expected actual = false) :
    CallQueue.popCall ⟨(expected, r) :: rest, pe⟩ tid actual =
      (PopResult.error (QMockError.UnexpectedCall
          ("Call does not match expectation. actual: " ++
            displayChain actual ++ "; expected: " ++ displayChain expected)),
        ⟨(expected, r) :: rest, pe ++ [⟨tid, QMockError.UnexpectedCall
          ("Call does not match expectation. actual: " ++
            displayChain actual ++ "; expected: " ++
            displayChain expected)⟩]⟩) := by
  simp [CallQueue.popCall, h]

theorem popCall_match (expected : Chain) (r : Value)
    (rest : List (Chain × Value)) (pe : List PopError)
    (tid : Nat) (actual : Chain) (h : chainEq expected actual = true) :
    CallQueue.popCall ⟨(expected, r) :: rest, pe⟩ tid actual =
      (if r.isExc then PopResult.raised r else PopResult.value r,
        ⟨rest, pe⟩) := by
  by_cases he : r.isExc = true
  · simp [CallQueue.popCall, h, he]
  · simp at he
    simp [CallQueue.popCall, h, he]

/-- C2: pop with an actual chain on an empty queue, or when the head
entry's expected chain is not structurally equal to the actual chain,
first appends exactly one pop-error record (calling thread id, error) to
the side log and surfaces the error as an UnexpectedCall; a successful
pop appends no pop-error record. -/
theorem pop_failure_side_log (q : List (Chain × Value)) (pe : List PopError)
    (tid : Nat) (actual : Chain) :
    (q = [] → ∃ msg,
      CallQueue.popCall ⟨q, pe⟩ tid actual =
        (PopResult.error (QMockError.UnexpectedCall msg),
          ⟨q, pe ++ [⟨tid, QMockError.UnexpectedCall msg⟩]⟩)) ∧
    (∀ expected r rest, q = (expected, r) :: rest →
      chainEq expected actual = false → ∃ msg,
      CallQueue.popCall ⟨q, pe⟩ tid actual =
        (PopResult.error (QMockError.UnexpectedCall msg),
          ⟨q, pe ++ [⟨tid, QMockError.UnexpectedCall msg⟩]⟩)) ∧
    (∀ expected r rest, q = (expected, r) :: rest →
      chainEq expected actual = true →
      (CallQueue.popCall ⟨q, pe⟩ tid actual).2.pop_errors = pe) := by
  refine ⟨?_, ?_, ?_⟩
  · intro h
    subst h
    exact ⟨_, popCall_empty [] pe tid actual rfl⟩
  · intro expected r rest h hne
    subst h
    exact ⟨_, popCall_mismatch expected r rest pe tid actual hne⟩
  · intro expected r rest h heq
    subst h
    rw [popCall_match expected r rest pe tid actual heq]

/-- Witness for pop_failure_side_log: popping call.foo() from an empty
queue on thread 7 logs one UnexpectedCall record for thread 7. -/
theorem pop_failure_side_log_witness :
    ∃ msg, CallQueue.popCall ⟨[], []⟩ 7 exFoo =
      (PopResult.error (QMockError.UnexpectedCall msg),
        ⟨[], [] ++ [⟨7, QMockError.UnexpectedCall msg⟩]⟩) :=
  (pop_failure_side_log [] [] 7 exFoo).1 rfl

/-- C3: when the actual chain matches the head entry's expected chain,
pop removes the head and returns the entry's configured result, raising
it instead when the result is an exception value; either way the entry is
consumed, and push of one entry followed by a matching pop leaves the
queue empty. -/
theorem pop_match_result :
    (∀ (pe : List PopError) (tid : Nat) (actual expected : Chain)
       (r : Value) (rest : List (Chain × Value)),
      chainEq expected actual = true →
      (r.isExc = false →
        CallQueue.popCall ⟨(expected, r) :: rest, pe⟩ tid actual =
          (PopResult.value r, ⟨rest, pe⟩)) ∧
      (r.isExc = true →
        CallQueue.popCall ⟨(expected, r) :: rest, pe⟩ tid actual =
          (PopResult.raised r, ⟨rest, pe⟩))) ∧
    (∀ (qm qm1 : QMock) (c : Chain) (r : Value) (tid : Nat),
      qm.call_queue.queue = [] →
      QMock.push qm c r = Except.ok qm1 →
      (qm1.call_queue.popCall tid c).2.queue = []) := by
  constructor
  · intro pe tid actual expected r rest heq
    constructor
    · intro he
      rw [popCall_match expected r rest pe tid actual heq, he]
      rfl
    · intro he
      rw [popCall_match expected r rest pe tid actual heq, he]
      rfl
  · intro qm qm1 c r tid hq hpush
    cases c with
    | root => exact absurd hpush (by simp [QMock.push])
    | attr p n => exact absurd hpush (by simp [QMock.push])
    | invoke p a k =>
      have hqm1 : qm1 = pushEntry qm (Chain.invoke p a k) r := by
        simpa [QMock.push] using hpush.symm
      subst hqm1
      have hq1 : (pushEntry qm (Chain.invoke p a k) r).call_queue =
          ⟨[(Chain.invoke p a k, r)], qm.call_queue.pop_errors⟩ := by
        simp [pushEntry, hq]
      rw [hq1,
        popCall_match (Chain.invoke p a k) r [] qm.call_queue.pop_errors
          tid (Chain.invoke p a k) (chainEq_refl _)]

/-- Witness for pop_match_result: pushing call.foo() with result 7357 on
a fresh double and popping the same chain empties the queue. -/
theorem pop_match_result_witness :
    ((pushEntry QMock.fresh exFoo (Value.int 7357)).call_queue.popCall
      3 exFoo).2.queue = [] :=
  pop_match_result.2 QMock.fresh (pushEntry QMock.fresh exFoo (Value.int 7357))
    exFoo (Value.int 7357) 3 rfl rfl

/-- C4: exact failure-message renderings: an empty-queue pop renders as
the queue-is-empty template over the actual chain's display, a mismatch
renders the actual and expected displays, concretely producing the exact
strings of the test suite, and the aggregate cross-thread failure lists
the repr of each recorded error in order. -/
theorem failure_message_rendering :
    (∀ (pe : List PopError) (tid : Nat) (actual : Chain),
      CallQueue.popCall ⟨[], pe⟩ tid actual =
        (PopResult.error (QMockError.UnexpectedCall
            ("Queue is empty. call: " ++ displayChain actual)),
          ⟨[], pe ++ [⟨tid, QMockError.UnexpectedCall
            ("Queue is empty. call: " ++ displayChain actual)⟩]⟩)) ∧
    (∀ (pe : List PopError) (tid : Nat) (actual expected : Chain)
       (r : Value) (rest : List (Chain × Value)),
      chainEq expected actual = false →
      (CallQueue.popCall ⟨(expected, r) :: rest, pe⟩ tid actual).1 =
        PopResult.error (QMockError.UnexpectedCall
          ("Call does not match expectation. actual: " ++
            displayChain actual ++ "; expected: " ++
            displayChain expected))) ∧
    (CallQueue.popCall ⟨[], []⟩ 7 exFoo).1 =
      PopResult.error (QMockError.UnexpectedCall
        "Queue is empty. call: call.foo()") ∧
    (CallQueue.popCall ⟨[(exFoo, Value.int 7357)], []⟩ 7 exNotFoo).1 =
      PopResult.error (QMockError.UnexpectedCall
        ("Call does not match expectation. actual: call.not_foo();" ++
          " expected: call.foo()")) ∧
    qmockErrorsInThreadsStr
        [pyRepr ⟨"RuntimeError", "foo"⟩, pyRepr ⟨"ValueError", "bar"⟩,
          pyRepr ⟨"KeyError", "baz"⟩] =
      "Unhandled QMock errors raised in other threads: [RuntimeError(" ++
        sqch ++ "foo" ++ sqch ++ "), ValueError(" ++ sqch ++ "bar" ++
        sqch ++ "), KeyError(" ++ sqch ++ "baz" ++ sqch ++ ")]" := by
  refine ⟨?_, ?_, rfl, rfl, rfl⟩
  · intro pe tid actual
    exact popCall_empty [] pe tid actual rfl
  · intro pe tid actual expected r rest hne
    rw [popCall_mismatch expected r rest pe tid actual hne]

/-- Witness for failure_message_rendering: the mismatch template at the
concrete actual call.not_foo() against expected call.foo(). -/
theorem failure_message_rendering_witness :
    (CallQueue.popCall ⟨[(exFoo, Value.int 1)], []⟩ 2 exNotFoo).1 =
      PopResult.error (QMockError.UnexpectedCall
        ("Call does not match expectation. actual: " ++
          displayChain exNotFoo ++ "; expected: " ++ displayChain exFoo)) :=
  failure_message_rendering.2.1 [] 2 exNotFoo exFoo (Value.int 1) [] rfl

/-- C5: at verification-scope exit, other-thread pop errors produce a
single aggregate failure carrying the ordered (thread id, error) pairs
with the body's own error (if any) preserved as chained cause; with no
other-thread errors a body error propagates unchanged and the
non-empty-queue check is skipped entirely. -/
theorem scope_exit_aggregation (bodyErr : Option PyExc) (cq : CallQueue)
    (owner : Nat) :
    (otherThreadErrors cq.pop_errors owner ≠ [] →
      scopeExit bodyErr cq owner =
        ScopeOutcome.raisedAggregate
          (otherThreadErrors cq.pop_errors owner) bodyErr) ∧
    (otherThreadErrors cq.pop_errors owner = [] →
      ∀ e, bodyErr = some e →
        scopeExit bodyErr cq owner = ScopeOutcome.raisedBody e ∧
        ∀ n, scopeExit bodyErr cq owner ≠ ScopeOutcome.raisedNotEmpty n) := by
  constructor
  · intro hne
    unfold scopeExit
    cases h : otherThreadErrors cq.pop_errors owner with
    | nil => exact absurd h hne
    | cons x xs => rfl
  · intro hz e hb
    subst hb
    unfold scopeExit
    rw [hz]
    exact ⟨rfl, by intro n h; exact ScopeOutcome.noConfusion h⟩

/-- Witness for scope_exit_aggregation: one pop error recorded on thread
2 with owner thread 1 and a body RuntimeError yields the aggregate
outcome chaining the body error. -/
theorem scope_exit_aggregation_witness :
    scopeExit (some ⟨"RuntimeError", "TEST"⟩)
        ⟨[], [⟨2, QMockError.UnexpectedCall "boom"⟩]⟩ 1 =
      ScopeOutcome.raisedAggregate
        (otherThreadErrors [⟨2, QMockError.UnexpectedCall "boom"⟩] 1)
        (some ⟨"RuntimeError", "TEST"⟩) :=
  (scope_exit_aggregation (some ⟨"RuntimeError", "TEST"⟩)
      ⟨[], [⟨2, QMockError.UnexpectedCall "boom"⟩]⟩ 1).1
    (fun h => List.noConfusion h)

/-- C6: reading a directly-assigned attribute returns the assigned value
unchanged without consulting the expectation queue: the double's state,
and in particular its call queue and pop-error log, are untouched, and no
matching logic (hence no UnexpectedCall) is triggered through the
assigned slot. -/
theorem assigned_attribute_read (qm : QMock) (id : Nat) (name : String)
    (v : Value) (h : lookupAssigned qm.assigned id name = some v) :
    getChild qm id name = (v, qm) ∧
    (getChild qm id name).2.call_queue = qm.call_queue := by
  constructor
  · simp [getChild, h]
  · simp [getChild, h]

/-- Witness for assigned_attribute_read: after assigning 5 to foo on a
fresh double, reading foo returns 5 and leaves the double unchanged. -/
theorem assigned_attribute_read_witness :
    getChild (setChild QMock.fresh 0 "foo" (Value.int 5)) 0 "foo" =
      (Value.int 5, setChild QMock.fresh 0 "foo" (Value.int 5)) :=
  (assigned_attribute_read (setChild QMock.fresh 0 "foo" (Value.int 5))
    0 "foo" (Value.int 5) rfl).1

/-- C7: push and push_all fail with the BadCall condition when the
expected chain's tip is an attribute node, leaving the queue without the
entry; push with an invocation-tipped chain succeeds and appends the
entry at the tail of the queue. -/
theorem push_tip_discipline :
    (∀ (qm : QMock) (r : Value) (p : Chain) (n : String),
      (∃ msg, QMock.push qm (Chain.attr p n) r =
        Except.error (QMockError.BadCall msg)) ∧
      (∃ msg, QMock.push_all qm (Chain.attr p n) r =
        Except.error (QMockError.BadCall msg))) ∧
    (∀ (qm : QMock) (r : Value) (p : Chain) (a : Args) (k : Kwargs),
      QMock.push qm (Chain.invoke p a k) r =
        Except.ok (pushEntry qm (Chain.invoke p a k) r) ∧
      (pushEntry qm (Chain.invoke p a k) r).call_queue.queue =
        qm.call_queue.queue ++ [(Chain.invoke p a k, r)]) := by
  constructor
  · intro qm r p n
    exact ⟨⟨_, rfl⟩, ⟨_, rfl⟩⟩
  · intro qm r p a k
    exact ⟨rfl, rfl⟩

/-- C9: chains built independently via identical paths with equal
argument values compare equal under the structural, recursive,
order-sensitive chain equality; that equality is exactly the relation the
expectation queue's pop uses to match actual calls against the head
expectation, and it distinguishes differently-ordered paths. -/
theorem chain_equality_matching :
    (∀ steps : List Step,
      chainEq (buildChain steps) (buildChain steps) = true) ∧
    (∀ (expected : Chain) (r : Value) (rest : List (Chain × Value))
       (pe : List PopError) (tid : Nat) (actual : Chain),
      (∃ e, (CallQueue.popCall ⟨(expected, r) :: rest, pe⟩ tid actual).1 =
          PopResult.error e) ↔ chainEq expected actual = false) ∧
    chainEq (buildChain [Step.attr "foo", Step.attr "bar"])
      (buildChain [Step.attr "bar", Step.attr "foo"]) = false := by
  refine ⟨?_, ?_, rfl⟩
  · intro steps
    exact chainEq_refl (buildChain steps)
  · intro expected r rest pe tid actual
    constructor
    · intro ⟨e, he⟩
      by_contra hne
      rw [Bool.not_eq_false] at hne
      rw [popCall_match expected r rest pe tid actual hne] at he
      by_cases hx : r.isExc = true
      · rw [hx] at he
        simp at he
      · rw [Bool.not_eq_true] at hx
        rw [hx] at he
        simp at he
    · intro hne
      rw [popCall_mismatch expected r rest pe tid actual hne]
      exact ⟨_, rfl⟩

theorem lookupChild_mem (l : List ((Nat × String) × Nat)) (n : Nat)
    (s : String) (c : Nat) (h : lookupChild l n s = some c) :
    c ∈ l.map Prod.snd := by
  induction l with
  | nil => simp [lookupChild] at h
  | cons e rest ih =>
    obtain ⟨⟨p, t⟩, d⟩ := e
    by_cases hk : p = n ∧ t = s
    · simp [lookupChild, hk] at h
      simp [h]
    · simp [lookupChild, hk] at h
      simp [ih h]

theorem lookupChild_lt (l : List ((Nat × String) × Nat)) (N n : Nat)
    (s : String) (c : Nat) (hb : ∀ e ∈ l, e.2 < N)
    (h : lookupChild l n s = some c) : c < N := by
  have hm := lookupChild_mem l n s c h
  rw [List.mem_map] at hm
  obtain ⟨e, he, hec⟩ := hm
  exact hec ▸ hb e he

theorem lookupChild_inj (l : List ((Nat × String) × Nat))
    (hnd : (l.map Prod.snd).Nodup) (n : Nat) (s : String) (c1 : Nat)
    (n2 : Nat) (s2 : String) (c2 : Nat)
    (h1 : lookupChild l n s = some c1)
    (h2 : lookupChild l n2 s2 = some c2)
    (hk : ¬(n = n2 ∧ s = s2)) : c1 ≠ c2 := by
  induction l with
  | nil => simp [lookupChild] at h1
  | cons e rest ih =>
    obtain ⟨⟨p, t⟩, d⟩ := e
    rw [List.map_cons, List.nodup_cons] at hnd
    obtain ⟨hd, hnd2⟩ := hnd
    by_cases k1 : p = n ∧ t = s
    · by_cases k2 : p = n2 ∧ t = s2
      · exact absurd ⟨k1.1.symm.trans k2.1, k1.2.symm.trans k2.2⟩ hk
      · simp [lookupChild, k1] at h1
        simp [lookupChild, k2] at h2
        have hm := lookupChild_mem rest n2 s2 c2 h2
        intro hcc
        exact hd (h1 ▸ hcc ▸ hm)
    · by_cases k2 : p = n2 ∧ t = s2
      · simp [lookupChild, k1] at h1
        simp [lookupChild, k2] at h2
        have hm := lookupChild_mem rest n s c1 h1
        intro hcc
        exact hd (h2 ▸ hcc ▸ hm)
      · simp [lookupChild, k1] at h1
        simp [lookupChild, k2] at h2
        exact ih hnd2 h1 h2

/-- C8: attribute access on a proxy node is identity-stable: repeated
access of the same name on the same node (including host-reserved
magic-method names, which route through the same mechanism) returns the
identical child and leaves the tree unchanged, until the name is
overwritten by a direct assignment, after which access returns the
assigned value; on a well-formed tree, children of distinct nodes or of
distinct names are distinct objects. -/
theorem child_identity (qm : QMock) (id : Nat) (name : String) :
    getChild (getChild qm id name).2 id name = getChild qm id name ∧
    (∀ v, getChild (setChild qm id name v) id name =
      (v, setChild qm id name v)) ∧
    (∀ (id2 : Nat) (name2 : String), WFq qm →
      (id, name) ≠ (id2, name2) →
      lookupAssigned qm.assigned id name = none →
      lookupAssigned qm.assigned id2 name2 = none →
      (getChild qm id name).1 ≠
        (getChild (getChild qm id name).2 id2 name2).1) := by
  refine ⟨?_, ?_, ?_⟩
  · cases ha : lookupAssigned qm.assigned id name with
    | some v => simp [getChild, ha]
    | none =>
      cases hc : lookupChild qm.children id name with
      | some c => simp [getChild, ha, hc]
      | none => simp [getChild, ha, hc, lookupChild]
  · intro v
    simp [getChild, setChild, lookupAssigned]
  · intro id2 name2 hwf hne ha1 ha2
    have hkey : ¬(id = id2 ∧ name = name2) := by
      intro ⟨h1, h2⟩
      exact hne (by rw [h1, h2])
    obtain ⟨hbound, hnd⟩ := hwf
    cases hc1 : lookupChild qm.children id name with
    | some c1 =>
      have hst : getChild qm id name = (Value.node c1, qm) := by
        simp [getChild, ha1, hc1]
      rw [hst]
      cases hc2 : lookupChild qm.children id2 name2 with
      | some c2 =>
        have hst2 : getChild qm id2 name2 = (Value.node c2, qm) := by
          simp [getChild, ha2, hc2]
        rw [hst2]
        have hcc := lookupChild_inj qm.children hnd id name c1 id2 name2 c2
          hc1 hc2 hkey
        simp [hcc]
      | none =>
        have hlt : c1 < qm.nextId :=
          lookupChild_lt qm.children qm.nextId id name c1 hbound hc1
        simp [getChild, ha2, hc2]
        omega
    | none =>
      have hst : getChild qm id name =
          (Value.node qm.nextId,
            { qm with
                nextId := qm.nextId + 1,
                children := ((id, name), qm.nextId) :: qm.children }) := by
        simp [getChild, ha1, hc1]
      rw [hst]
      have hl2 : lookupChild (((id, name), qm.nextId) :: qm.children)
          id2 name2 = lookupChild qm.children id2 name2 := by
        simp [lookupChild, hkey]
      cases hc2 : lookupChild qm.children id2 name2 with
      | some c2 =>
        have hlt : c2 < qm.nextId :=
          lookupChild_lt qm.children qm.nextId id2 name2 c2 hbound hc2
        simp [getChild, ha2, hl2, hc2]
        omega
      | none =>
        simp [getChild, ha2, hl2, hc2]

/-- Witness for child_identity: on a fresh double the magic-method child
len of the root differs from the child foo of the root. -/
theorem child_identity_witness :
    (getChild QMock.fresh 0 "__len__").1 ≠
      (getChild (getChild QMock.fresh 0 "__len__").2 0 "foo").1 :=
  (child_identity QMock.fresh 0 "__len__").2.2 0 "foo"
    ⟨by simp [QMock.fresh], by simp [QMock.fresh]⟩
    (by simp) rfl rfl

theorem childExt_refl (qm : QMock) : ChildExt qm qm :=
  ⟨fun _ _ _ h => h, rfl⟩

theorem childExt_trans (qm1 qm2 qm3 : QMock) (h12 : ChildExt qm1 qm2)
    (h23 : ChildExt qm2 qm3) : ChildExt qm1 qm3 :=
  ⟨fun n s c h => h23.1 n s c (h12.1 n s c h),
    h23.2.trans h12.2⟩

theorem childExt_queue (qm : QMock) (cq : CallQueue) :
    ChildExt qm { qm with call_queue := cq } :=
  ⟨fun _ _ _ h => h, rfl⟩

theorem getChild_assigned (qm : QMock) (id : Nat) (name : String) :
    (getChild qm id name).2.assigned = qm.assigned := by
  cases ha : lookupAssigned qm.assigned id name with
  | some v => simp [getChild, ha]
  | none =>
    cases hc : lookupChild qm.children id name with
    | some c => simp [getChild, ha, hc]
    | none => simp [getChild, ha, hc]

theorem getChild_queue (qm : QMock) (id : Nat) (name : String) :
    (getChild qm id name).2.call_queue = qm.call_queue := by
  cases ha : lookupAssigned qm.assigned id name with
  | some v => simp [getChild, ha]
  | none =>
    cases hc : lookupChild qm.children id name with
    | some c => simp [getChild, ha, hc]
    | none => simp [getChild, ha, hc]

theorem getChild_ext (qm : QMock) (id : Nat) (name : String) :
    ChildExt qm (getChild qm id name).2 := by
  cases ha : lookupAssigned qm.assigned id name with
  | some v => simp [getChild, ha]; exact childExt_refl qm
  | none =>
    cases hc : lookupChild qm.children id name with
    | some c => simp [getChild, ha, hc]; exact childExt_refl qm
    | none =>
      simp [getChild, ha, hc]
      constructor
      · intro n s c h
        have hk : ¬(id = n ∧ name = s) := by
          intro ⟨h1, h2⟩
          rw [h1, h2] at hc
          rw [hc] at h
          exact Option.noConfusion h
        simp [lookupChild, hk]
        exact h
      · rfl

theorem getChild_node (qm : QMock) (id : Nat) (name : String)
    (ha : qm.assigned = []) :
    ∃ c, getChild qm id name = (Value.node c, (getChild qm id name).2) := by
  have ha2 : lookupAssigned qm.assigned id name = none := by
    rw [ha]
    rfl
  cases hc : lookupChild qm.children id name with
  | some c => exact ⟨c, by simp [getChild, ha2, hc]⟩
  | none => exact ⟨qm.nextId, by simp [getChild, ha2, hc]⟩

theorem getChild_sticky (qm qm1 qm2 : QMock) (id : Nat) (name : String)
    (v : Value) (h : getChild qm id name = (v, qm1))
    (hext : ChildExt qm1 qm2) : getChild qm2 id name = (v, qm2) := by
  cases ha : lookupAssigned qm.assigned id name with
  | some w =>
    simp [getChild, ha] at h
    obtain ⟨rfl, rfl⟩ := h
    have ha2 : lookupAssigned qm2.assigned id name = some w := by
      rw [hext.2]
      exact ha
    simp [getChild, ha2]
  | none =>
    cases hc : lookupChild qm.children id name with
    | some c =>
      simp [getChild, ha, hc] at h
      obtain ⟨rfl, rfl⟩ := h
      have ha2 : lookupAssigned qm2.assigned id name = none := by
        rw [hext.2]
        exact ha
      have hc2 : lookupChild qm2.children id name = some c :=
        hext.1 id name c hc
      simp [getChild, ha2, hc2]
    | none =>
      simp [getChild, ha, hc] at h
      obtain ⟨rfl, rfl⟩ := h
      have hc1 : lookupChild
          (((id, name), qm.nextId) :: qm.children) id name =
            some qm.nextId := by
        simp [lookupChild]
      have hc2 : lookupChild qm2.children id name = some qm.nextId :=
        hext.1 id name qm.nextId hc1
      have ha2 : lookupAssigned qm2.assigned id name = none := by
        rw [hext.2]
        exact ha
      simp [getChild, ha2, hc2]

theorem getChild_mono (qm qm1 : QMock) (id : Nat) (name : String)
    (v : Value) (h : getChild qm id name = (v, qm1)) :
    qm.children.length ≤ qm1.children.length ∧
      (qm1.children.length = qm.children.length → qm1 = qm) := by
  cases ha : lookupAssigned qm.assigned id name with
  | some w =>
    simp [getChild, ha] at h
    obtain ⟨rfl, rfl⟩ := h
    exact ⟨Nat.le_refl _, fun _ => rfl⟩
  | none =>
    cases hc : lookupChild qm.children id name with
    | some c =>
      simp [getChild, ha, hc] at h
      obtain ⟨rfl, rfl⟩ := h
      exact ⟨Nat.le_refl _, fun _ => rfl⟩
    | none =>
      simp [getChild, ha, hc] at h
      obtain ⟨rfl, rfl⟩ := h
      refine ⟨by simp, fun hl => ?_⟩
      simp at hl

theorem mockReturnAux_mono : (c : Chain) → ∀ (qm qm1 : QMock) (v : Value),
    mockReturnAux qm c = Except.ok (v, qm1) →
    qm.children.length ≤ qm1.children.length ∧
      (qm1.children.length = qm.children.length → qm1 = qm)
  | Chain.root => by
    intro qm qm1 v h
    simp [mockReturnAux] at h
    obtain ⟨rfl, rfl⟩ := h
    exact ⟨Nat.le_refl _, fun _ => rfl⟩
  | Chain.attr p n => by
    intro qm qm1 v h
    cases hp : mockReturnAux qm p with
    | error e => simp [mockReturnAux, hp] at h
    | ok pr =>
      obtain ⟨w, qmA⟩ := pr
      simp [mockReturnAux, hp] at h
      cases w with
      | node wid =>
        simp [getChildV] at h
        obtain ⟨h1, h2⟩ := mockReturnAux_mono p qm qmA (Value.node wid) hp
        obtain ⟨h3, h4⟩ := getChild_mono qmA qm1 wid n v h
        refine ⟨Nat.le_trans h1 h3, fun hl => ?_⟩
        have e1 : qmA.children.length = qm.children.length := by omega
        have e2 : qm1.children.length = qmA.children.length := by omega
        exact (h4 e2).trans (h2 e1)
      | int a => simp [getChildV] at h
      | str a => simp [getChildV] at h
      | chain a => simp [getChildV] at h
      | exc a b => simp [getChildV] at h
  | Chain.invoke p a k => by
    intro qm qm1 v h
    cases hp : mockReturnAux qm p with
    | error e => simp [mockReturnAux, hp] at h
    | ok pr =>
      obtain ⟨w, qmA⟩ := pr
      simp [mockReturnAux, hp] at h
      cases w with
      | node wid =>
        simp [getChildV] at h
        obtain ⟨h1, h2⟩ := mockReturnAux_mono p qm qmA (Value.node wid) hp
        obtain ⟨h3, h4⟩ := getChild_mono qmA qm1 wid "return_value" v h
        refine ⟨Nat.le_trans h1 h3, fun hl => ?_⟩
        have e1 : qmA.children.length = qm.children.length := by omega
        have e2 : qm1.children.length = qmA.children.length := by omega
        exact (h4 e2).trans (h2 e1)
      | int x => simp [getChildV] at h
      | str x => simp [getChildV] at h
      | chain x => simp [getChildV] at h
      | exc x y => simp [getChildV] at h
termination_by structural c => c

theorem mockReturnAux_sticky : (c : Chain) → ∀ (qm qm2 : QMock) (v : Value),
    mockReturnAux qm c = Except.ok (v, qm) → ChildExt qm qm2 →
    mockReturnAux qm2 c = Except.ok (v, qm2)
  | Chain.root => by
    intro qm qm2 v h hext
    simp [mockReturnAux] at h
    subst h
    simp [mockReturnAux]
  | Chain.attr p n => by
    intro qm qm2 v h hext
    cases hp : mockReturnAux qm p with
    | error e => simp [mockReturnAux, hp] at h
    | ok pr =>
      obtain ⟨w, qmA⟩ := pr
      simp [mockReturnAux, hp] at h
      cases w with
      | node wid =>
        simp [getChildV] at h
        obtain ⟨h1, h2⟩ := mockReturnAux_mono p qm qmA (Value.node wid) hp
        obtain ⟨h3, h4⟩ := getChild_mono qmA qm wid n v h
        have eA : qmA = qm := h2 (by omega)
        subst eA
        have hp2 := mockReturnAux_sticky p qmA qm2 (Value.node wid) hp hext
        have hg2 := getChild_sticky qmA qmA qm2 wid n v h hext
        simp [mockReturnAux, hp2, getChildV, hg2]
      | int x => simp [getChildV] at h
      | str x => simp [getChildV] at h
      | chain x => simp [getChildV] at h
      | exc x y => simp [getChildV] at h
  | Chain.invoke p a k => by
    intro qm qm2 v h hext
    cases hp : mockReturnAux qm p with
    | error e => simp [mockReturnAux, hp] at h
    | ok pr =>
      obtain ⟨w, qmA⟩ := pr
      simp [mockReturnAux, hp] at h
      cases w with
      | node wid =>
        simp [getChildV] at h
        obtain ⟨h1, h2⟩ := mockReturnAux_mono p qm qmA (Value.node wid) hp
        obtain ⟨h3, h4⟩ := getChild_mono qmA qm wid "return_value" v h
        have eA : qmA = qm := h2 (by omega)
        subst eA
        have hp2 := mockReturnAux_sticky p qmA qm2 (Value.node wid) hp hext
        have hg2 := getChild_sticky qmA qmA qm2 wid "return_value" v h hext
        simp [mockReturnAux, hp2, getChildV, hg2]
      | int x => simp [getChildV] at h
      | str x => simp [getChildV] at h
      | chain x => simp [getChildV] at h
      | exc x y => simp [getChildV] at h
termination_by structural c => c

theorem mockReturnAux_fixed : (c : Chain) → ∀ (qm qm1 : QMock) (v : Value),
    mockReturnAux qm c = Except.ok (v, qm1) →
    mockReturnAux qm1 c = Except.ok (v, qm1)
  | Chain.root => by
    intro qm qm1 v h
    simp [mockReturnAux] at h
    obtain ⟨rfl, rfl⟩ := h
    simp [mockReturnAux]
  | Chain.attr p n => by
    intro qm qm1 v h
    cases hp : mockReturnAux qm p with
    | error e => simp [mockReturnAux, hp] at h
    | ok pr =>
      obtain ⟨w, qmA⟩ := pr
      simp [mockReturnAux, hp] at h
      cases w with
      | node wid =>
        simp [getChildV] at h
        have hfix := mockReturnAux_fixed p qm qmA (Value.node wid) hp
        have hextA : ChildExt qmA qm1 := by
          have hh := getChild_ext qmA wid n
          rw [h] at hh
          exact hh
        have hp1 := mockReturnAux_sticky p qmA qm1 (Value.node wid) hfix hextA
        have hg1 := getChild_sticky qmA qm1 qm1 wid n v h (childExt_refl qm1)
        simp [mockReturnAux, hp1, getChildV, hg1]
      | int x => simp [getChildV] at h
      | str x => simp [getChildV] at h
      | chain x => simp [getChildV] at h
      | exc x y => simp [getChildV] at h
  | Chain.invoke p a k => by
    intro qm qm1 v h
    cases hp : mockReturnAux qm p with
    | error e => simp [mockReturnAux, hp] at h
    | ok pr =>
      obtain ⟨w, qmA⟩ := pr
      simp [mockReturnAux, hp] at h
      cases w with
      | node wid =>
        simp [getChildV] at h
        have hfix := mockReturnAux_fixed p qm qmA (Value.node wid) hp
        have hextA : ChildExt qmA qm1 := by
          have hh := getChild_ext qmA wid "return_value"
          rw [h] at hh
          exact hh
        have hp1 := mockReturnAux_sticky p qmA qm1 (Value.node wid) hfix hextA
        have hg1 := getChild_sticky qmA qm1 qm1 wid "return_value" v h
          (childExt_refl qm1)
        simp [mockReturnAux, hp1, getChildV, hg1]
      | int x => simp [getChildV] at h
      | str x => simp [getChildV] at h
      | chain x => simp [getChildV] at h
      | exc x y => simp [getChildV] at h
termination_by structural c => c

theorem mockReturnAux_ext : (c : Chain) → ∀ (qm qm1 : QMock) (v : Value),
    mockReturnAux qm c = Except.ok (v, qm1) →
    ChildExt qm qm1 ∧ qm1.call_queue = qm.call_queue
  | Chain.root => by
    intro qm qm1 v h
    simp [mockReturnAux] at h
    obtain ⟨rfl, rfl⟩ := h
    exact ⟨childExt_refl qm, rfl⟩
  | Chain.attr p n => by
    intro qm qm1 v h
    cases hp : mockReturnAux qm p with
    | error e => simp [mockReturnAux, hp] at h
    | ok pr =>
      obtain ⟨w, qmA⟩ := pr
      simp [mockReturnAux, hp] at h
      cases w with
      | node wid =>
        simp [getChildV] at h
        obtain ⟨hx1, hq1⟩ := mockReturnAux_ext p qm qmA (Value.node wid) hp
        have hx2 : ChildExt qmA qm1 := by
          have hh := getChild_ext qmA wid n
          rw [h] at hh
          exact hh
        have hq2 : qm1.call_queue = qmA.call_queue := by
          have hh := getChild_queue qmA wid n
          rw [h] at hh
          exact hh
        exact ⟨childExt_trans qm qmA qm1 hx1 hx2, hq2.trans hq1⟩
      | int x => simp [getChildV] at h
      | str x => simp [getChildV] at h
      | chain x => simp [getChildV] at h
      | exc x y => simp [getChildV] at h
  | Chain.invoke p a k => by
    intro qm qm1 v h
    cases hp : mockReturnAux qm p with
    | error e => simp [mockReturnAux, hp] at h
    | ok pr =>
      obtain ⟨w, qmA⟩ := pr
      simp [mockReturnAux, hp] at h
      cases w with
      | node wid =>
        simp [getChildV] at h
        obtain ⟨hx1, hq1⟩ := mockReturnAux_ext p qm qmA (Value.node wid) hp
        have hx2 : ChildExt qmA qm1 := by
          have hh := getChild_ext qmA wid "return_value"
          rw [h] at hh
          exact hh
        have hq2 : qm1.call_queue = qmA.call_queue := by
          have hh := getChild_queue qmA wid "return_value"
          rw [h] at hh
          exact hh
        exact ⟨childExt_trans qm qmA qm1 hx1 hx2, hq2.trans hq1⟩
      | int x => simp [getChildV] at h
      | str x => simp [getChildV] at h
      | chain x => simp [getChildV] at h
      | exc x y => simp [getChildV] at h
termination_by structural c => c

theorem mockReturnAux_ok : (c : Chain) → ∀ qm : QMock, qm.assigned = [] →
    ∃ (m : Nat) (qm1 : QMock),
      mockReturnAux qm c = Except.ok (Value.node m, qm1)
  | Chain.root => by
    intro qm ha
    exact ⟨0, qm, by simp [mockReturnAux]⟩
  | Chain.attr p n => by
    intro qm ha
    obtain ⟨m, qmA, hp⟩ := mockReturnAux_ok p qm ha
    have hA : qmA.assigned = [] := by
      rw [(mockReturnAux_ext p qm qmA (Value.node m) hp).1.2, ha]
    obtain ⟨cc, hgc⟩ := getChild_node qmA m n hA
    refine ⟨cc, (getChild qmA m n).2, ?_⟩
    simp [mockReturnAux, hp, getChildV]
    exact hgc
  | Chain.invoke p a k => by
    intro qm ha
    obtain ⟨m, qmA, hp⟩ := mockReturnAux_ok p qm ha
    have hA : qmA.assigned = [] := by
      rw [(mockReturnAux_ext p qm qmA (Value.node m) hp).1.2, ha]
    obtain ⟨cc, hgc⟩ := getChild_node qmA m "return_value" hA
    refine ⟨cc, (getChild qmA m "return_value").2, ?_⟩
    simp [mockReturnAux, hp, getChildV]
    exact hgc
termination_by structural c => c

theorem pushInters_spec : (c : Chain) → ∀ qm : QMock, qm.assigned = [] →
    ∃ (qmB : QMock) (es : List (Chain × Value)),
      pushInters qm c = Except.ok qmB ∧
      qmB.assigned = [] ∧
      qmB.call_queue.queue = qm.call_queue.queue ++ es ∧
      qmB.call_queue.pop_errors = qm.call_queue.pop_errors ∧
      es.map Prod.fst = invokePrefixes c ∧
      ChildExt qm qmB ∧
      (∀ e ∈ es, (e.2).isNode = true ∧
        mockReturnAux qmB e.1 = Except.ok (e.2, qmB))
  | Chain.root => by
    intro qm ha
    refine ⟨qm, [], ?_, ha, by simp, rfl, by simp [invokePrefixes],
      childExt_refl qm, by simp⟩
    simp [pushInters]
  | Chain.attr p n => by
    intro qm ha
    obtain ⟨qmB, es, h1, h2, h3, h4, h5, h6, h7⟩ := pushInters_spec p qm ha
    exact ⟨qmB, es, by simp [pushInters, h1], h2, h3, h4,
      by simp [invokePrefixes, h5], h6, h7⟩
  | Chain.invoke p a k => by
    intro qm ha
    obtain ⟨qm1, es1, hpI, ha1, hq1, hpe1, hm1, hx1, hall1⟩ :=
      pushInters_spec p qm ha
    obtain ⟨m, qm2, hmr⟩ := mockReturnAux_ok (Chain.invoke p a k) qm1 ha1
    obtain ⟨hx2, hq2⟩ :=
      mockReturnAux_ext (Chain.invoke p a k) qm1 qm2 (Value.node m) hmr
    have hxP : ChildExt qm2
        (pushEntry qm2 (Chain.invoke p a k) (Value.node m)) :=
      childExt_queue qm2 _
    refine ⟨pushEntry qm2 (Chain.invoke p a k) (Value.node m),
      es1 ++ [(Chain.invoke p a k, Value.node m)], ?_, ?_, ?_, ?_, ?_, ?_, ?_⟩
    · simp [pushInters, hpI, hmr]
    · show qm2.assigned = []
      rw [hx2.2]
      exact ha1
    · show qm2.call_queue.queue ++ [(Chain.invoke p a k, Value.node m)] = _
      rw [hq2, hq1]
      simp
    · show qm2.call_queue.pop_errors = _
      rw [hq2, hpe1]
    · simp [invokePrefixes, hm1]
    · exact childExt_trans _ _ _ (childExt_trans _ _ _ hx1 hx2) hxP
    · intro e he
      rcases List.mem_append.mp he with he1 | he2
      · obtain ⟨hn, hrec⟩ := hall1 e he1
        refine ⟨hn, ?_⟩
        exact mockReturnAux_sticky e.1 qm1 _ e.2 hrec
          (childExt_trans _ _ _ hx2 hxP)
      · rw [List.mem_singleton] at he2
        subst he2
        refine ⟨rfl, ?_⟩
        exact mockReturnAux_sticky (Chain.invoke p a k) qm2 _ (Value.node m)
          (mockReturnAux_fixed (Chain.invoke p a k) qm1 qm2 (Value.node m) hmr)
          hxP
termination_by structural c => c

theorem isNode_not_isExc (v : Value) (h : v.isNode = true) :
    v.isExc = false := by
  cases v <;> simp_all [Value.isNode, Value.isExc]

theorem map_fst_split (es : List (Chain × Value)) :
    ∀ (l : List Chain) (x : Chain), es.map Prod.fst = l ++ [x] →
    ∃ (es1 : List (Chain × Value)) (e : Chain × Value),
      es = es1 ++ [e] ∧ es1.map Prod.fst = l ∧ e.1 = x := by
  induction es with
  | nil =>
    intro l x h
    simp at h
  | cons a es2 ih =>
    intro l x h
    cases l with
    | nil =>
      rw [List.map_cons] at h
      simp at h
      obtain ⟨h1, h2⟩ := h
      have : es2 = [] := by
        cases es2 with
        | nil => rfl
        | cons b bs => simp at h2
      subst this
      exact ⟨[], a, by simp, by simp, h1⟩
    | cons b l2 =>
      rw [List.map_cons, List.cons_append] at h
      have h1 : a.1 = b := (List.cons.injEq _ _ _ _ ▸ h).1
      have h2 : es2.map Prod.fst = l2 ++ [x] := (List.cons.injEq _ _ _ _ ▸ h).2
      obtain ⟨es1, e, he1, he2, he3⟩ := ih l2 x h2
      exact ⟨a :: es1, e, by rw [he1, List.cons_append], by simp [he2, h1], he3⟩

theorem getChild_node_fst (qm : QMock) (id : Nat) (name : String)
    (ha : qm.assigned = []) :
    ((getChild qm id name).1).isNode = true := by
  obtain ⟨cc, hgc⟩ := getChild_node qm id name ha
  rw [hgc]
  rfl

theorem popCall_match_of_queue (cq : CallQueue) (expected : Chain)
    (r : Value) (rest : List (Chain × Value)) (tid : Nat) (actual : Chain)
    (hq : cq.queue = (expected, r) :: rest)
    (h : chainEq expected actual = true) :
    cq.popCall tid actual =
      (if r.isExc then PopResult.raised r else PopResult.value r,
        ⟨rest, cq.pop_errors⟩) := by
  obtain ⟨qq, pp⟩ := cq
  simp at hq
  subst hq
  exact popCall_match expected r rest pp tid actual h

theorem runChain_spec : (c : Chain) →
    ∀ (qm : QMock) (es rest : List (Chain × Value)) (tid : Nat),
    qm.assigned = [] →
    qm.call_queue.queue = es ++ rest →
    es.map Prod.fst = invokePrefixes c →
    (∀ e ∈ es.dropLast, (e.2).isNode = true) →
    (tipInv c = false → ∀ e ∈ es, (e.2).isNode = true) →
    (∀ e : Chain × Value, es.getLast? = some e → (e.2).isExc = false) →
    ∃ (v : Value) (qm2 : QMock),
      runChain tid qm c = Except.ok (v, qm2) ∧
      qm2.call_queue.queue = rest ∧
      qm2.assigned = [] ∧
      qm2.call_queue.pop_errors = qm.call_queue.pop_errors ∧
      (tipInv c = true →
        ∃ e : Chain × Value, es.getLast? = some e ∧ v = e.2) ∧
      (tipInv c = false → v.isNode = true)
  | Chain.root => by
    intro qm es rest tid ha hq hm h4 h5 h6
    have hes : es = [] := by
      have hh : es.map Prod.fst = [] := by
        rw [hm]
        rfl
      exact List.map_eq_nil_iff.mp hh
    subst hes
    refine ⟨Value.node 0, qm, ?_, ?_, ha, rfl, ?_, fun _ => rfl⟩
    · simp [runChain]
    · simpa using hq
    · intro h
      exact absurd h (by simp [tipInv])
  | Chain.attr p n => by
    intro qm es rest tid ha hq hm h4 h5 h6
    have hall : ∀ e ∈ es, (e.2).isNode = true := h5 rfl
    have hm2 : es.map Prod.fst = invokePrefixes p := by
      simpa [invokePrefixes] using hm
    obtain ⟨v1, qm1, hrun, hq1, ha1, hpe1, htip, hntip⟩ :=
      runChain_spec p qm es rest tid ha hq hm2 h4 (fun _ => hall) h6
    have hv1 : v1.isNode = true := by
      cases htl : tipInv p with
      | true =>
        obtain ⟨e, he1, he2⟩ := htip htl
        exact he2 ▸ hall e (List.mem_of_mem_getLast? he1)
      | false => exact hntip htl
    cases v1 with
    | node wid =>
      have hnode : ((getChild qm1 wid n).1).isNode = true :=
        getChild_node_fst qm1 wid n ha1
      refine ⟨(getChild qm1 wid n).1, (getChild qm1 wid n).2, ?_, ?_, ?_, ?_,
        ?_, fun _ => hnode⟩
      · simp [runChain, hrun, getChildV]
      · rw [getChild_queue qm1 wid n]
        exact hq1
      · rw [getChild_assigned qm1 wid n]
        exact ha1
      · rw [getChild_queue qm1 wid n]
        exact hpe1
      · intro h
        exact absurd h (by simp [tipInv])
    | int x => simp [Value.isNode] at hv1
    | str x => simp [Value.isNode] at hv1
    | chain x => simp [Value.isNode] at hv1
    | exc x y => simp [Value.isNode] at hv1
  | Chain.invoke p a k => by
    intro qm es rest tid ha hq hm h4 h5 h6
    rw [invokePrefixes] at hm
    obtain ⟨es1, e, hsplit, hm1, he1⟩ :=
      map_fst_split es (invokePrefixes p) (Chain.invoke p a k) hm
    subst hsplit
    obtain ⟨ec, ev⟩ := e
    have hec : ec = Chain.invoke p a k := he1
    subst hec
    have hall1 : ∀ x ∈ es1, (x.2).isNode = true := by
      intro x hx
      exact h4 x (by rw [List.dropLast_concat]; exact hx)
    have hq2 : qm.call_queue.queue =
        es1 ++ ((Chain.invoke p a k, ev) :: rest) := by
      rw [hq]
      simp
    have h62 : ∀ x : Chain × Value, es1.getLast? = some x →
        (x.2).isExc = false := by
      intro x hx
      exact isNode_not_isExc x.2 (hall1 x (List.mem_of_mem_getLast? hx))
    obtain ⟨v1, qm1, hrun, hq1, ha1, hpe1, _, _⟩ :=
      runChain_spec p qm es1 ((Chain.invoke p a k, ev) :: rest) tid ha hq2
        hm1 (fun x hx => hall1 x (List.mem_of_mem_dropLast hx))
        (fun _ => hall1) h62
    have hlast : (es1 ++ [(Chain.invoke p a k, ev)]).getLast? =
        some (Chain.invoke p a k, ev) := List.getLast?_concat _
    have hexc : ev.isExc = false := h6 _ hlast
    have hpop := popCall_match_of_queue qm1.call_queue (Chain.invoke p a k)
      ev rest tid (Chain.invoke p a k) hq1 (chainEq_refl _)
    refine ⟨ev, { qm1 with
        call_queue := ⟨rest, qm1.call_queue.pop_errors⟩ },
      ?_, rfl, ha1, hpe1, ?_, ?_⟩
    · simp [runChain, hrun]
      rw [hpop, hexc]
      simp
    · intro _
      exact ⟨(Chain.invoke p a k, ev), hlast, rfl⟩
    · intro hf
      exact absurd hf (by simp [tipInv])
termination_by structural c => c

/-- C1: push_all on an invocation-tipped multi-step chain decomposes it
into its increasing invocation-prefix sequence, pushing one entry per
prefix in prefix order, where every intermediate entry is configured with
the proxy node resolveExpectedReturn naturally produces for that prefix
and only the final full-chain entry carries the supplied result, so that
invoking the full chain against the double consumes all entries in order
and yields the final result; in particular
push_all(call(x=1).foo(y=2).bar(5), 10) pushes exactly the three
increasing prefixes. -/
theorem push_all_prefix_decomposition :
    (∀ (p : Chain) (a : Args) (k : Kwargs) (r : Value) (tid : Nat),
      r.isExc = false →
      ∃ (qm1 : QMock) (es : List (Chain × Value)),
        QMock.push_all QMock.fresh (Chain.invoke p a k) r = Except.ok qm1 ∧
        qm1.call_queue.queue = es ++ [(Chain.invoke p a k, r)] ∧
        es.map Prod.fst = invokePrefixes p ∧
        (∀ e ∈ es, (e.2).isNode = true ∧
          mockReturnAux qm1 e.1 = Except.ok (e.2, qm1)) ∧
        ∃ qm2 : QMock,
          runChain tid qm1 (Chain.invoke p a k) = Except.ok (r, qm2) ∧
          qm2.call_queue.queue = []) ∧
    (∃ qmE : QMock,
      QMock.push_all QMock.fresh exFull (Value.int 10) = Except.ok qmE ∧
      qmE.call_queue.queue =
        [(exPref1, Value.node 1), (exPref2, Value.node 3),
          (exFull, Value.int 10)] ∧
      mockReturnAux qmE exPref1 = Except.ok (Value.node 1, qmE) ∧
      mockReturnAux qmE exPref2 = Except.ok (Value.node 3, qmE) ∧
      ∃ qm2 : QMock,
        runChain 0 qmE exFull = Except.ok (Value.int 10, qm2) ∧
        qm2.call_queue.queue = []) := by
  constructor
  · intro p a k r tid hr
    obtain ⟨qmB, es, hpI, haB, hqB, hpeB, hmB, hxB, hallB⟩ :=
      pushInters_spec p QMock.fresh rfl
    refine ⟨pushEntry qmB (Chain.invoke p a k) r, es, ?_, ?_, hmB, ?_, ?_⟩
    · simp [QMock.push_all, hpI]
    · show qmB.call_queue.queue ++ [(Chain.invoke p a k, r)] = _
      rw [hqB]
      simp [QMock.fresh]
    · intro e he
      obtain ⟨hn, hrec⟩ := hallB e he
      exact ⟨hn, mockReturnAux_sticky e.1 qmB _ e.2 hrec
        (childExt_queue qmB _)⟩
    · have haQ : (pushEntry qmB (Chain.invoke p a k) r).assigned = [] := haB
      have hqQ : (pushEntry qmB (Chain.invoke p a k) r).call_queue.queue =
          (es ++ [(Chain.invoke p a k, r)]) ++ [] := by
        show qmB.call_queue.queue ++ [(Chain.invoke p a k, r)] = _
        rw [hqB]
        simp [QMock.fresh]
      have hmQ : (es ++ [(Chain.invoke p a k, r)]).map Prod.fst =
          invokePrefixes (Chain.invoke p a k) := by
        rw [List.map_append, hmB]
        simp [invokePrefixes]
      have h4Q : ∀ e ∈ (es ++ [(Chain.invoke p a k, r)]).dropLast,
          (e.2).isNode = true := by
        intro e he
        rw [List.dropLast_concat] at he
        exact (hallB e he).1
      have h5Q : tipInv (Chain.invoke p a k) = false →
          ∀ e ∈ es ++ [(Chain.invoke p a k, r)], (e.2).isNode = true := by
        intro h
        exact absurd h (by simp [tipInv])
      have h6Q : ∀ e : Chain × Value,
          (es ++ [(Chain.invoke p a k, r)]).getLast? = some e →
          (e.2).isExc = false := by
        intro e he
        rw [List.getLast?_concat] at he
        have : e = (Chain.invoke p a k, r) := (Option.some.injEq _ _ ▸ he).symm
        rw [this]
        exact hr
      obtain ⟨v, qm2, hrun, hq2, _, _, htip, _⟩ :=
        runChain_spec (Chain.invoke p a k)
          (pushEntry qmB (Chain.invoke p a k) r)
          (es ++ [(Chain.invoke p a k, r)]) [] tid haQ hqQ hmQ h4Q h5Q h6Q
      obtain ⟨e, helast, hve⟩ := htip rfl
      rw [List.getLast?_concat] at helast
      have he : e = (Chain.invoke p a k, r) := (Option.some.injEq _ _ ▸ helast).symm
      rw [he] at hve
      rw [hve] at hrun
      exact ⟨qm2, hrun, hq2⟩
  · exact ⟨_, rfl, rfl, rfl, rfl, _, rfl, rfl⟩

/-- Witness for push_all_prefix_decomposition: the general part applied to
the concrete chain call(x=1).foo(y=2).bar(5) with final result 10. -/
theorem push_all_prefix_decomposition_witness :
    ∃ (qm1 : QMock) (es : List (Chain × Value)),
      QMock.push_all QMock.fresh
          (Chain.invoke (Chain.attr exPref2 "bar")
            (Args.cons (Value.int 5) Args.nil) Kwargs.nil)
          (Value.int 10) = Except.ok qm1 ∧
      qm1.call_queue.queue = es ++
        [(Chain.invoke (Chain.attr exPref2 "bar")
            (Args.cons (Value.int 5) Args.nil) Kwargs.nil, Value.int 10)] ∧
      es.map Prod.fst = invokePrefixes (Chain.attr exPref2 "bar") ∧
      (∀ e ∈ es, (e.2).isNode = true ∧
        mockReturnAux qm1 e.1 = Except.ok (e.2, qm1)) ∧
      ∃ qm2 : QMock,
        runChain 4 qm1
            (Chain.invoke (Chain.attr exPref2 "bar")
              (Args.cons (Value.int 5) Args.nil) Kwargs.nil) =
          Except.ok (Value.int 10, qm2) ∧
        qm2.call_queue.queue = [] :=
  push_all_prefix_decomposition.1 (Chain.attr exPref2 "bar")
    (Args.cons (Value.int 5) Args.nil) Kwargs.nil (Value.int 10) 4 rfl

theorem getChildPath_ext (path : List String) : ∀ (qm : QMock) (id : Nat),
    ChildExt qm (getChildPath qm id path).2 := by
  induction path with
  | nil => intro qm id; exact childExt_refl qm
  | cons n rest ih =>
    intro qm id
    cases hg : getChild qm id n with
    | mk gv gqm =>
      have hx1 : ChildExt qm gqm := by
        have hh := getChild_ext qm id n
        rw [hg] at hh
        exact hh
      cases gv with
      | node c =>
        simp [getChildPath, hg]
        exact childExt_trans _ _ _ hx1 (ih gqm c)
      | int x => simp [getChildPath, hg]; exact hx1
      | str x => simp [getChildPath, hg]; exact hx1
      | chain x => simp [getChildPath, hg]; exact hx1
      | exc x y => simp [getChildPath, hg]; exact hx1

theorem getChildPath_queue (path : List String) : ∀ (qm : QMock) (id : Nat),
    (getChildPath qm id path).2.call_queue = qm.call_queue := by
  induction path with
  | nil => intro qm id; rfl
  | cons n rest ih =>
    intro qm id
    cases hg : getChild qm id n with
    | mk gv gqm =>
      have hq1 : gqm.call_queue = qm.call_queue := by
        have hh := getChild_queue qm id n
        rw [hg] at hh
        exact hh
      cases gv with
      | node c =>
        simp [getChildPath, hg]
        rw [ih gqm c, hq1]
      | int x => simp [getChildPath, hg]; exact hq1
      | str x => simp [getChildPath, hg]; exact hq1
      | chain x => simp [getChildPath, hg]; exact hq1
      | exc x y => simp [getChildPath, hg]; exact hq1

theorem getChildPath_sticky (path : List String) :
    ∀ (qm qm1 qm2 : QMock) (id : Nat) (v : Value),
    getChildPath qm id path = (v, qm1) → ChildExt qm1 qm2 →
    getChildPath qm2 id path = (v, qm2) := by
  induction path with
  | nil =>
    intro qm qm1 qm2 id v h hext
    simp [getChildPath] at h
    obtain ⟨rfl, rfl⟩ := h
    simp [getChildPath]
  | cons n rest ih =>
    intro qm qm1 qm2 id v h hext
    cases hg : getChild qm id n with
    | mk gv gqm =>
      cases gv with
      | node c =>
        simp [getChildPath, hg] at h
        have hxA : ChildExt gqm qm1 := by
          have hh := getChildPath_ext rest gqm c
          rw [h] at hh
          exact hh
        have hg2 := getChild_sticky qm gqm qm2 id n (Value.node c) hg
          (childExt_trans _ _ _ hxA hext)
        simp [getChildPath, hg2]
        exact ih gqm qm1 qm2 c v h hext
      | int x =>
        simp [getChildPath, hg] at h
        obtain ⟨rfl, rfl⟩ := h
        have hg2 := getChild_sticky qm gqm qm2 id n (Value.int x) hg hext
        simp [getChildPath, hg2]
      | str x =>
        simp [getChildPath, hg] at h
        obtain ⟨rfl, rfl⟩ := h
        have hg2 := getChild_sticky qm gqm qm2 id n (Value.str x) hg hext
        simp [getChildPath, hg2]
      | chain x =>
        simp [getChildPath, hg] at h
        obtain ⟨rfl, rfl⟩ := h
        have hg2 := getChild_sticky qm gqm qm2 id n (Value.chain x) hg hext
        simp [getChildPath, hg2]
      | exc x y =>
        simp [getChildPath, hg] at h
        obtain ⟨rfl, rfl⟩ := h
        have hg2 := getChild_sticky qm gqm qm2 id n (Value.exc x y) hg hext
        simp [getChildPath, hg2]

/-- C10: a host magic-method operation on a proxy node is matched as an
invocation whose expected chain extends the node's path with the method
name (as built via a getattr step) and whose first positional argument is
the owning proxy node itself: pushing exactly that expectation makes the
triggered operation consume it and yield the configured result, while an
expectation built for one node's magic method does not match the same
operation on a different node and raises UnexpectedCall instead. -/
theorem magic_method_dispatch :
    (∀ (qm qm1 : QMock) (tid : Nat) (path : List String) (meth : String)
       (extra : Args) (r v : Value),
      qm.call_queue.queue = [] →
      r.isExc = false →
      getChildPath qm 0 path = (v, qm1) →
      ∃ qm2 : QMock,
        magicOp (pushEntry qm1 (magicChain path meth v extra) r) tid path
            meth extra = (PopResult.value r, qm2) ∧
        qm2.call_queue.queue = []) ∧
    (∃ msg, (magicOp
        (pushEntry (getChildPath QMock.fresh 0 ["foo"]).2
          (magicChain [] "__len__" (Value.node 0) Args.nil) (Value.int 1))
        5 ["foo"] "__len__" Args.nil).1 =
      PopResult.error (QMockError.UnexpectedCall msg)) := by
  constructor
  · intro qm qm1 tid path meth extra r v hq hr hgp
    have hsticky := getChildPath_sticky path qm qm1
      (pushEntry qm1 (magicChain path meth v extra) r) 0 v hgp
      (childExt_queue qm1 _)
    have hq1 : qm1.call_queue = qm.call_queue := by
      have hh := getChildPath_queue path qm 0
      rw [hgp] at hh
      exact hh
    have hpq :
        (pushEntry qm1 (magicChain path meth v extra) r).call_queue.queue =
          (magicChain path meth v extra, r) :: [] := by
      show qm1.call_queue.queue ++ _ = _
      rw [hq1, hq]
      simp
    have hpop := popCall_match_of_queue
      (pushEntry qm1 (magicChain path meth v extra) r).call_queue
      (magicChain path meth v extra) r [] tid
      (magicChain path meth v extra) hpq (chainEq_refl _)
    refine ⟨{ pushEntry qm1 (magicChain path meth v extra) r with
        call_queue :=
          ⟨[], (pushEntry qm1
            (magicChain path meth v extra) r).call_queue.pop_errors⟩ },
      ?_, rfl⟩
    simp [magicOp, hsticky]
    rw [hpop, hr]
    simp
  · exact ⟨_, rfl⟩

/-- Witness for magic_method_dispatch: on a fresh double, pushing the
expectation for the less-than operation on the foo child (with the foo
node itself as first argument) and triggering it returns the configured
value and empties the queue. -/
theorem magic_method_dispatch_witness :
    ∃ qm2 : QMock,
      magicOp
          (pushEntry (getChildPath QMock.fresh 0 ["foo"]).2
            (magicChain ["foo"] "__lt__"
              (getChildPath QMock.fresh 0 ["foo"]).1
              (Args.cons (Value.int 5) Args.nil))
            (Value.str "test"))
          3 ["foo"] "__lt__" (Args.cons (Value.int 5) Args.nil) =
        (PopResult.value (Value.str "test"), qm2) ∧
      qm2.call_queue.queue = [] :=
  magic_method_dispatch.1 QMock.fresh (getChildPath QMock.fresh 0 ["foo"]).2
    3 ["foo"] "__lt__" (Args.cons (Value.int 5) Args.nil)
    (Value.str "test") (getChildPath QMock.fresh 0 ["foo"]).1 rfl rfl rfl
